import Mathlib

/-!
Verification of the AgentsChatGroup chat-runner core.

The definitions below are shallow embeddings of the Rust sources
`crates/services/src/services/chat_runner.rs`,
`crates/services/src/services/chat.rs` and
`crates/db/src/models/chat_session_agent.rs`.  Pure functions are
translated to Lean functions; the stateful scheduler and the stream
bridge are translated to explicit state passing.  The byte-pair token
estimator, the message fingerprint hash and the Unicode alphanumeric
class are kept as parameters: every theorem holds for an arbitrary
(deterministic) choice, exactly as the code only relies on determinism.
-/

namespace AgentsChatGroup

/-- ASCII lower-casing of a single character, as used by Rust's
`eq_ignore_ascii_case`. -/
def toAsciiLower (c : Char) : Char :=
  if 'A' ≤ c ∧ c ≤ 'Z' then Char.ofNat (c.toNat + 32) else c

/-- Embedding of Rust `str::eq_ignore_ascii_case` (UTF-8 byte-wise
ASCII-case-insensitive comparison agrees with character-wise comparison). -/
def eqIgnoreAsciiCase (a b : String) : Bool :=
  a.data.map toAsciiLower == b.data.map toAsciiLower

/-- Character class of a mention handle: `alphanumeric | _ | -`
(`chat.rs`, `parse_mentions`).  The Unicode alphanumeric predicate is a
parameter. -/
def isMentionHandleChar (isAlnum : Char → Bool) (c : Char) : Bool :=
  isAlnum c || c == '_' || c == '-'

/-- Character class blocking a `@` when it appears directly before it:
`alphanumeric | _ | - | .` (`chat.rs`, `parse_mentions`). -/
def isMentionBoundaryBlocked (isAlnum : Char → Bool) (c : Char) : Bool :=
  isAlnum c || c == '_' || c == '-' || c == '.'

/-- Handle scanned after the `@` at index `i`: the maximal following run
of handle characters (`chat.rs`, inner `while` loop of `parse_mentions`). -/
def mention_name_at (isAlnum : Char → Bool) (chars : List Char) (i : Nat) : String :=
  String.mk ((chars.drop (i + 1)).takeWhile (isMentionHandleChar isAlnum))

/-- Candidate handles of `parse_mentions` in scan order, before
de-duplication: for every index `i` holding a `@` that is not preceded by
a blocking character, the non-empty maximal handle run after it
(`chat.rs`, outer `for` loop of `parse_mentions`). -/
def mention_candidates (isAlnum : Char → Bool) (chars : List Char) : List String :=
  (List.range chars.length).filterMap (fun i =>
    match chars.get? i with
    | some c =>
      if c == '@' then
        let prevOk : Bool :=
          if i == 0 then true
          else match chars.get? (i - 1) with
            | some p => !(isMentionBoundaryBlocked isAlnum p)
            | none => true
        if prevOk then
          let name := mention_name_at isAlnum chars i
          if name.isEmpty then none else some name
        else none
      else none
    | none => none)

/-- The `seen`-set de-duplication of `parse_mentions`: push a name only
when `seen.insert(name)` reports it as new (`chat.rs`). -/
def dedupFirstAux : List String → List String → List String
  | [], _ => []
  | x :: xs, seen =>
    if seen.contains x then dedupFirstAux xs seen
    else x :: dedupFirstAux xs (x :: seen)

/-- Embedding of `chat.rs::parse_mentions`. -/
def parse_mentions (isAlnum : Char → Bool) (content : String) : List String :=
  dedupFirstAux (mention_candidates isAlnum content.data) []

/-- Specification-side description of "first-occurrence order, without
duplicates": keep each element's first occurrence, erase later
duplicates. -/
def firstOccurrences : List String → List String
  | [] => []
  | x :: xs => x :: firstOccurrences (xs.filter (fun y => !(y == x)))
termination_by l => l.length
decreasing_by
  simp only [List.length_cons]
  exact Nat.lt_succ_of_le (List.length_filter_le _ _)

lemma dedupFirstAux_cons (x : String) (xs seen : List String) :
    dedupFirstAux (x :: xs) seen
      = if seen.contains x then dedupFirstAux xs seen
        else x :: dedupFirstAux xs (x :: seen) := rfl

lemma firstOccurrences_cons (x : String) (xs : List String) :
    firstOccurrences (x :: xs)
      = x :: firstOccurrences (xs.filter (fun y => !(y == x))) := by
  rw [firstOccurrences]

lemma dedupFirstAux_eq_firstOccurrences (l : List String) :
    ∀ seen, dedupFirstAux l seen
      = firstOccurrences (l.filter (fun y => !(seen.contains y))) := by
  induction l with
  | nil => intro seen; simp [dedupFirstAux, firstOccurrences]
  | cons x xs ih =>
    intro seen
    rw [dedupFirstAux_cons]
    by_cases hmem : x ∈ seen
    · have hc : seen.contains x = true := by simpa using hmem
      rw [if_pos hc, ih seen]
      congr 1
      simp [List.filter_cons, hmem]
    · have hc : seen.contains x = false := by simpa using hmem
      rw [if_neg (by simp [hmem]), ih (x :: seen)]
      have hmain : (x :: xs).filter (fun y => !(seen.contains y))
          = x :: xs.filter (fun y => !(seen.contains y)) := by
        simp [List.filter_cons, hmem]
      rw [hmain, firstOccurrences_cons]
      congr 1
      rw [List.filter_filter]
      congr 1
      apply List.filter_congr
      intro y _
      simp only [List.contains_cons, Bool.not_or]

lemma mem_firstOccurrences (y : String) (l : List String) :
    y ∈ firstOccurrences l ↔ y ∈ l := by
  induction l using firstOccurrences.induct with
  | case1 => simp [firstOccurrences]
  | case2 x xs ih =>
    rw [firstOccurrences]
    simp only [List.mem_cons, ih, List.mem_filter, Bool.not_eq_true', beq_eq_false_iff_ne,
      ne_eq]
    constructor
    · rintro (rfl | ⟨hy, _⟩)
      · exact Or.inl rfl
      · exact Or.inr hy
    · rintro (rfl | hy)
      · exact Or.inl rfl
      · by_cases hx : y = x
        · exact Or.inl hx
        · exact Or.inr ⟨hy, hx⟩

lemma nodup_firstOccurrences (l : List String) : (firstOccurrences l).Nodup := by
  induction l using firstOccurrences.induct with
  | case1 => simp [firstOccurrences]
  | case2 x xs ih =>
    rw [firstOccurrences]
    refine List.nodup_cons.mpr ⟨fun hx => ?_, ih⟩
    rw [mem_firstOccurrences] at hx
    have := (List.mem_filter.mp hx).2
    simp at this

/-- C9: for every Unicode input string (and every alphanumeric class),
`parse_mentions` returns the candidate `@`-handles — those whose `@` is
not preceded by an alphanumeric, `_`, `-` or `.` character, taking the
maximal following run of alphanumeric, `_` or `-` characters, ignoring
empty handles — in first-occurrence order without duplicates. -/
theorem c9_parse_mentions_first_occurrence_dedup
    (isAlnum : Char → Bool) (content : String) :
    parse_mentions isAlnum content
      = firstOccurrences (mention_candidates isAlnum content.data)
    ∧ (parse_mentions isAlnum content).Nodup
    ∧ ∀ h, h ∈ parse_mentions isAlnum content
        ↔ h ∈ mention_candidates isAlnum content.data := by
  have heq : parse_mentions isAlnum content
      = firstOccurrences (mention_candidates isAlnum content.data) := by
    rw [parse_mentions, dedupFirstAux_eq_firstOccurrences]
    congr 1
    apply (List.filter_eq_self).mpr
    intro a _
    simp [List.contains]
  refine ⟨heq, ?_, ?_⟩
  · rw [heq]; exact nodup_firstOccurrences _
  · intro h
    rw [heq]
    exact mem_firstOccurrences _ _

/-! Embedding of `chat.rs::parse_send_message_directives`. -/

/-- First index at which `pat` occurs in `s` (Rust `str::find`). -/
def findPat (pat : List Char) : List Char → Option Nat
  | [] => if pat.isEmpty then some 0 else none
  | c :: rest =>
    if pat.isPrefixOf (c :: rest) then some 0
    else (findPat pat rest).map (· + 1)

lemma findPat_lt_length (pat : List Char) (hpat : pat ≠ []) :
    ∀ s i, findPat pat s = some i → i < s.length := by
  intro s
  induction s with
  | nil =>
    intro i h
    simp [findPat, List.isEmpty_iff, hpat] at h
  | cons c rest ih =>
    intro i h
    rw [findPat] at h
    by_cases hp : pat.isPrefixOf (c :: rest)
    · rw [if_pos hp] at h
      cases h
      simp
    · rw [if_neg hp] at h
      rcases Option.map_eq_some'.mp h with ⟨j, hj, rfl⟩
      have := ih j hj
      simp only [List.length_cons]
      omega

/-- Marker string of a routing directive (`chat.rs`, `PREFIX`). -/
def sendDirectiveMarker : List Char := ("[sendMessageTo@@").data

/-- Opening brace character of the braced directive form. -/
def openBraceChar : Char := Char.ofNat 123

/-- Closing sequence of the braced directive form. -/
def braceCloseMarker : List Char := [Char.ofNat 125, ']']

lemma drop_marker_length_lt {s : List Char} {i : Nat}
    (h : findPat sendDirectiveMarker s = some i) :
    (s.drop (i + sendDirectiveMarker.length)).length < s.length := by
  have hi : i < s.length := findPat_lt_length _ (by decide) s i h
  have hlen : 0 < sendDirectiveMarker.length := by decide
  rw [List.length_drop]
  omega

/-- Cursor loop of `parse_send_message_directives`: scan for the marker,
read the braced or plain name up to the closing bracket, validate it
(non-empty after trim, handle characters only), de-duplicate via the
`seen` set, and continue after the directive (`chat.rs`). -/
def psmdGo (isAlnum : Char → Bool) (s : List Char) (seen : List String) : List String :=
  match hfind : findPat sendDirectiveMarker s with
  | none => []
  | some i =>
    let afterMarker := s.drop (i + sendDirectiveMarker.length)
    if afterMarker.head? = some openBraceChar then
      match findPat braceCloseMarker afterMarker.tail with
      | none => psmdGo isAlnum afterMarker.tail seen
      | some j =>
        let name := (String.mk (afterMarker.tail.take j)).trim
        let next := afterMarker.tail.drop (j + 2)
        if (!name.isEmpty) && name.data.all (isMentionHandleChar isAlnum)
            && !(seen.contains name)
        then name :: psmdGo isAlnum next (name :: seen)
        else psmdGo isAlnum next seen
    else
      match findPat ([']']) afterMarker with
      | none => psmdGo isAlnum afterMarker seen
      | some j =>
        let name := (String.mk (afterMarker.take j)).trim
        let next := afterMarker.drop (j + 1)
        if (!name.isEmpty) && name.data.all (isMentionHandleChar isAlnum)
            && !(seen.contains name)
        then name :: psmdGo isAlnum next (name :: seen)
        else psmdGo isAlnum next seen
termination_by s.length
decreasing_by
  all_goals
    have hlt := drop_marker_length_lt hfind
    simp only [List.length_drop, List.length_tail] at hlt ⊢
    omega

/-- Embedding of `chat.rs::parse_send_message_directives`. -/
def parse_send_message_directives (isAlnum : Char → Bool) (content : String) : List String :=
  psmdGo isAlnum content.data []

/-! Chain-depth guard and mention dispatch (`chat_runner.rs::handle_message`,
`chat.rs::create_message_with_id`). -/

/-- Sender type of a chat message (`chat_message.rs`). -/
inductive ChatSenderType
  | user
  | agent
  | system
deriving DecidableEq, Repr

/-- Maximum agent chain depth (`chat_runner.rs`, `MAX_AGENT_CHAIN_DEPTH`). -/
def MAX_AGENT_CHAIN_DEPTH : Nat := 5

/-- Embedding of `chat_runner.rs::extract_chain_depth`: the message meta's
`chain_depth` field, defaulting to 0 when absent. -/
def extract_chain_depth (meta : Option Nat) : Nat := meta.getD 0

/-- Mentions stored on a newly created message
(`chat.rs::create_message_with_id`): directives for agent senders,
`parse_mentions` for every other sender type. -/
def message_mentions (isAlnum : Char → Bool) (senderType : ChatSenderType)
    (content : String) : List String :=
  match senderType with
  | .agent => parse_send_message_directives isAlnum content
  | _ => parse_mentions isAlnum content

/-- Embedding of the dispatch loop of `chat_runner.rs::handle_message`:
the mentions for which `run_agent_for_mention` is spawned.  The chain
depth guard returns early; the only per-mention skip is the reserved
handle `you` in agent-originated messages. -/
def handle_message_triggered (senderType : ChatSenderType) (chainDepth : Nat)
    (mentions : List String) : List String :=
  if MAX_AGENT_CHAIN_DEPTH ≤ chainDepth then []
  else mentions.filter (fun m =>
    !(decide (senderType = .agent) && eqIgnoreAsciiCase m "you"))

/-- Chain depth written into the agent message produced by a run
(`chat_runner.rs::spawn_stream_bridge`, meta `"chain_depth": chain_depth + 1`). -/
def bridge_chain_depth (sourceDepth : Nat) : Nat := sourceDepth + 1

/-- A chain of agent-to-agent runs: `RunChain d n` holds when, starting
from a message of chain depth `d`, `n` successive runs can occur, each
triggered through `handle_message_triggered` and each producing a message
of depth `bridge_chain_depth d`. -/
inductive RunChain : Nat → Nat → Prop
  | nil (d : Nat) : RunChain d 0
  | cons (d n : Nat) (st : ChatSenderType) (ms : List String)
      (htrig : handle_message_triggered st d ms ≠ [])
      (htail : RunChain (bridge_chain_depth d) n) : RunChain d (n + 1)

lemma handle_message_triggered_depth_lt {st : ChatSenderType} {d : Nat}
    {ms : List String} (h : handle_message_triggered st d ms ≠ []) :
    d < MAX_AGENT_CHAIN_DEPTH := by
  by_contra hge
  push_neg at hge
  exact h (by simp [handle_message_triggered, hge])

lemma runChain_bound {d n : Nat} (h : RunChain d n) :
    n = 0 ∨ n + d ≤ MAX_AGENT_CHAIN_DEPTH := by
  induction h with
  | nil d => exact Or.inl rfl
  | cons d n st ms htrig htail ih =>
    have hd : d < MAX_AGENT_CHAIN_DEPTH := handle_message_triggered_depth_lt htrig
    right
    rcases ih with h0 | hle
    · omega
    · simp only [bridge_chain_depth] at hle
      omega

/-- C4: a message whose chain depth is at least
`MAX_AGENT_CHAIN_DEPTH = 5` triggers no run; the agent message produced
by a run carries the triggering depth plus one; and any chain of runs
starting from a depth-0 user message has at most 5 runs. -/
theorem c4_chain_depth_bound (st : ChatSenderType) (d : Nat) (ms : List String)
    (n : Nat) (hchain : RunChain 0 n) :
    n ≤ MAX_AGENT_CHAIN_DEPTH
    ∧ (MAX_AGENT_CHAIN_DEPTH ≤ d → handle_message_triggered st d ms = [])
    ∧ bridge_chain_depth d = d + 1 := by
  refine ⟨?_, ?_, rfl⟩
  · rcases runChain_bound hchain with h0 | hle
    · omega
    · omega
  · intro hge
    simp [handle_message_triggered, hge]

theorem c4_chain_depth_bound_witness :
    2 ≤ MAX_AGENT_CHAIN_DEPTH
    ∧ (MAX_AGENT_CHAIN_DEPTH ≤ 7 → handle_message_triggered .user 7 ["a"] = [])
    ∧ bridge_chain_depth 7 = 8 := by
  have hchain : RunChain 0 2 := by
    refine RunChain.cons 0 1 .user ["a"] (by decide) ?_
    refine RunChain.cons 1 0 .user ["a"] (by decide) ?_
    exact RunChain.nil 2
  exact c4_chain_depth_bound .user 7 ["a"] 2 hchain

/-- C10: a System message's stored mentions are computed by
`parse_mentions` exactly as for a User message, and `handle_message`
dispatches a run for each of them (below the chain-depth limit) with no
sender-type restriction — so a System message containing `@name` starts
agent runs. -/
theorem c10_system_message_mentions_trigger_runs
    (isAlnum : Char → Bool) (content : String) (d : Nat)
    (hd : d < MAX_AGENT_CHAIN_DEPTH) :
    message_mentions isAlnum .system content = parse_mentions isAlnum content
    ∧ handle_message_triggered .system d (message_mentions isAlnum .system content)
        = parse_mentions isAlnum content
    ∧ message_mentions isAlnum .system content
        = message_mentions isAlnum .user content := by
  refine ⟨rfl, ?_, rfl⟩
  rw [handle_message_triggered, if_neg (by omega)]
  show (parse_mentions isAlnum content).filter _ = _
  simp

theorem c10_system_message_mentions_trigger_runs_witness :
    message_mentions (fun c => c.isAlphanum) .system "@coder hi"
        = parse_mentions (fun c => c.isAlphanum) "@coder hi"
    ∧ handle_message_triggered .system 0
        (message_mentions (fun c => c.isAlphanum) .system "@coder hi")
        = parse_mentions (fun c => c.isAlphanum) "@coder hi"
    ∧ message_mentions (fun c => c.isAlphanum) .system "@coder hi"
        = message_mentions (fun c => c.isAlphanum) .user "@coder hi" :=
  c10_system_message_mentions_trigger_runs (fun c => c.isAlphanum) "@coder hi" 0
    (by decide)

/-! Mention resolution (`chat_runner.rs::resolve_session_agent_for_mention`). -/

/-- Scan loop of `resolve_session_agent_for_mention` over the session's
agent names in order: an exact name match breaks the scan and wins; a
case-insensitive match is remembered, and a second one aborts the scan
with no result (ambiguous mention); at the end the exact match, else the
remembered case-insensitive match, is returned. -/
def resolveMentionAux (mention : String) : List String → Option String → Option String
  | [], ci => ci
  | n :: rest, ci =>
    if n = mention then some n
    else if eqIgnoreAsciiCase n mention then
      match ci with
      | some _ => Option.none
      | Option.none => resolveMentionAux mention rest (some n)
    else resolveMentionAux mention rest ci

/-- Embedding of `chat_runner.rs::resolve_session_agent_for_mention`,
restricted to the name-resolution logic (the returned value stands for
the selected agent's name; `Option.none` is a skipped mention). -/
def resolve_session_agent_for_mention (names : List String) (mention : String) :
    Option String :=
  resolveMentionAux mention names Option.none

lemma resolveMentionAux_cons (mention n : String) (rest : List String)
    (ci : Option String) :
    resolveMentionAux mention (n :: rest) ci
      = if n = mention then some n
        else if eqIgnoreAsciiCase n mention then
          match ci with
          | some _ => Option.none
          | Option.none => resolveMentionAux mention rest (some n)
        else resolveMentionAux mention rest ci := rfl

lemma resolveMentionAux_no_exact (mention : String) :
    ∀ (l : List String) (ci : Option String), mention ∉ l →
      resolveMentionAux mention l ci
        = match ci, l.filter (fun n => eqIgnoreAsciiCase n mention) with
          | _, [] => ci
          | Option.none, [x] => some x
          | _, _ => Option.none := by
  intro l
  induction l with
  | nil =>
    intro ci _
    cases ci <;> simp [resolveMentionAux]
  | cons n rest ih =>
    intro ci hmem
    have hn : ¬(n = mention) := fun h => hmem (h ▸ List.mem_cons_self n rest)
    have hrest : mention ∉ rest := fun h => hmem (List.mem_cons_of_mem n h)
    rw [resolveMentionAux_cons, if_neg hn]
    by_cases hci : eqIgnoreAsciiCase n mention
    · rw [if_pos hci]
      have hfilter : (n :: rest).filter (fun m => eqIgnoreAsciiCase m mention)
          = n :: rest.filter (fun m => eqIgnoreAsciiCase m mention) := by
        simp [List.filter_cons, hci]
      rw [hfilter]
      cases ci with
      | none =>
        rw [ih (some n) hrest]
        cases hr : rest.filter (fun m => eqIgnoreAsciiCase m mention) <;> simp
      | some c => rfl
    · rw [if_neg hci, ih ci hrest]
      have hfilter : (n :: rest).filter (fun m => eqIgnoreAsciiCase m mention)
          = rest.filter (fun m => eqIgnoreAsciiCase m mention) := by
        simp [List.filter_cons, hci]
      rw [hfilter]

/-- Number of remembered case-insensitive matches carried by the scan
accumulator (zero or one). -/
def ciMatchCount : Option String → Nat
  | some _ => 1
  | Option.none => 0

lemma resolveMentionAux_exact (mention : String) :
    ∀ (pre post : List String) (ci : Option String), mention ∉ pre →
      resolveMentionAux mention (pre ++ mention :: post) ci
        = if ciMatchCount ci
              + (pre.filter (fun n => eqIgnoreAsciiCase n mention)).length ≤ 1
          then some mention else Option.none := by
  intro pre
  induction pre with
  | nil =>
    intro post ci _
    rw [List.nil_append, resolveMentionAux_cons, if_pos rfl]
    cases ci <;> simp [ciMatchCount]
  | cons n pre' ih =>
    intro post ci hmem
    have hn : ¬(n = mention) := fun h => hmem (h ▸ List.mem_cons_self n pre')
    have hpre : mention ∉ pre' := fun h => hmem (List.mem_cons_of_mem n h)
    rw [List.cons_append, resolveMentionAux_cons, if_neg hn]
    by_cases hci : eqIgnoreAsciiCase n mention
    · have hfilter : (n :: pre').filter (fun m => eqIgnoreAsciiCase m mention)
          = n :: pre'.filter (fun m => eqIgnoreAsciiCase m mention) := by
        simp [List.filter_cons, hci]
      rw [if_pos hci, hfilter]
      cases ci with
      | none =>
        rw [ih post (some n) hpre]
        simp only [ciMatchCount, List.length_cons]
        exact if_congr (by omega) rfl rfl
      | some c =>
        simp only [ciMatchCount, List.length_cons]
        rw [if_neg (by omega)]
    · have hfilter : (n :: pre').filter (fun m => eqIgnoreAsciiCase m mention)
          = pre'.filter (fun m => eqIgnoreAsciiCase m mention) := by
        simp [List.filter_cons, hci]
      rw [if_neg hci, ih post ci hpre, hfilter]

/-- C5 (amended): scanning the session's agents in order, the first
exact name match is selected — unless two case-insensitive matches occur
strictly before it, in which case the mention is skipped; when no exact
match exists, the unique case-insensitive match is selected, and a
non-unique one is skipped with no run. -/
theorem c5_resolve_mention_amended (names : List String) (mention : String) :
    (∀ pre post, names = pre ++ mention :: post → mention ∉ pre →
      resolve_session_agent_for_mention names mention
        = if (pre.filter (fun n => eqIgnoreAsciiCase n mention)).length ≤ 1
          then some mention else Option.none)
    ∧ (mention ∉ names →
      resolve_session_agent_for_mention names mention
        = match names.filter (fun n => eqIgnoreAsciiCase n mention) with
          | [x] => some x
          | _ => Option.none) := by
  constructor
  · intro pre post hsplit hpre
    rw [resolve_session_agent_for_mention, hsplit,
      resolveMentionAux_exact mention pre post Option.none hpre]
    simp [ciMatchCount]
  · intro hmem
    rw [resolve_session_agent_for_mention,
      resolveMentionAux_no_exact mention names Option.none hmem]
    cases names.filter (fun n => eqIgnoreAsciiCase n mention) with
    | nil => rfl
    | cons x tl => cases tl <;> rfl

/-- C5 counterexample: with session agents named `coder`, `CODER`,
`Coder` (in that order) and mention `Coder`, an exact match exists but
resolution skips the mention, because two case-insensitive matches are
scanned before the exact one. -/
theorem c5_resolve_mention_counterexample :
    resolve_session_agent_for_mention ["coder", "CODER", "Coder"] "Coder" = Option.none
    ∧ "Coder" ∈ ["coder", "CODER", "Coder"] := by
  constructor
  · decide
  · decide

theorem c5_resolve_mention_witness :
    resolve_session_agent_for_mention ["Coder", "coder"] "coder" = some "coder" := by
  have h := (c5_resolve_mention_amended ["Coder", "coder"] "coder").1
    ["Coder"] [] rfl (by decide)
  rw [h]
  decide

/-! SessionAgent row, spawn decision, and stop_agent
(`chat_session_agent.rs`, `chat_runner.rs`). -/

/-- State of a session agent (`chat_session_agent.rs`). -/
inductive ChatSessionAgentState
  | idle
  | running
  | waitingApproval
  | dead
deriving DecidableEq, Repr

/-- The columns of a `chat_session_agents` row relevant to spawning:
state plus the two executor continuation handles
(`agent_session_id`, `agent_message_id`). -/
structure SessionAgentRow where
  state : ChatSessionAgentState
  agentSessionId : Option String
  agentMessageId : Option String
deriving DecidableEq, Repr

/-- Embedding of `ChatSessionAgent::update_state`: the SQL update sets
only the `state` column (and `updated_at`); both handles are untouched. -/
def update_state (row : SessionAgentRow) (s : ChatSessionAgentState) : SessionAgentRow :=
  { row with state := s }

/-- Embedding of `chat_runner.rs::stop_agent`'s effect on the row: it
cancels the cancellation token and forces the state to Dead via
`update_state`; it does not touch the continuation handles. -/
def stop_agent (row : SessionAgentRow) : SessionAgentRow :=
  update_state row .dead

/-- How the executor is started for a run. -/
inductive SpawnKind
  | fresh
  | followUp
deriving DecidableEq, Repr

/-- Embedding of the spawn check of `run_agent_for_mention` as written
at the spawn site: if the row bound there is not Dead and
`agent_session_id` is present, spawn a follow-up, otherwise a fresh
spawn. -/
def spawn_decision (row : SessionAgentRow) : SpawnKind :=
  if row.state ≠ ChatSessionAgentState.dead then
    match row.agentSessionId with
    | some _ => SpawnKind.followUp
    | Option.none => SpawnKind.fresh
  else SpawnKind.fresh

/-- Embedding of the transition preceding the spawn check in
`run_agent_for_mention`: the Running case returned earlier (enqueueing
the message), and otherwise `session_agent` is rebound to the row
returned by `update_state(Running)` — so the row observed by the spawn
check is always in state Running. -/
def run_transition_to_running (row : SessionAgentRow) : SessionAgentRow :=
  if row.state ≠ ChatSessionAgentState.running then
    update_state row ChatSessionAgentState.running
  else row

/-- The spawn kind actually chosen for a run starting from the pre-run
row: the spawn check applied to the rebound (Running) row. -/
def run_spawn_kind (row : SessionAgentRow) : SpawnKind :=
  spawn_decision (run_transition_to_running row)

/-- Effect of the stream bridge's finalization on the row
(`spawn_stream_bridge`): on failure it clears both continuation handles
and then sets the state to Dead; on success it sets Idle. -/
def bridge_finalize_row (row : SessionAgentRow) (failed : Bool) : SessionAgentRow :=
  let cleared :=
    if failed then
      { row with agentSessionId := Option.none, agentMessageId := Option.none }
    else row
  update_state cleared (if failed then .dead else .idle)

/-- C1 counterexample: `stop_agent` forces a Running SessionAgent with a
persisted executor session handle to Dead without clearing the handle
(`update_state` sets only the state column), and its next run spawns a
follow-up, not a fresh spawn: before the spawn check the row is rebound
to the `update_state(Running)` result, so the not-Dead guard is
vacuously true and the retained handle selects `spawn_follow_up` —
contradicting both the claimed follow-up condition (Dead with a handle
should give a fresh spawn) and the claim that after `stop_agent` the
next run starts fresh with cleared handles. -/
theorem c1_spawn_counterexample :
    (stop_agent ⟨.running, some "sess", some "msg"⟩).state = ChatSessionAgentState.dead
    ∧ (stop_agent ⟨.running, some "sess", some "msg"⟩).agentSessionId = some "sess"
    ∧ run_spawn_kind (stop_agent ⟨.running, some "sess", some "msg"⟩)
        = SpawnKind.followUp := by
  decide

/-- C1 (amended): every run first rebinds the SessionAgent row to the
`update_state(Running)` result, so the spawn check never observes Dead
and its not-Dead guard is vacuous: the executor is spawned as a
follow-up iff the row holds an executor session handle, and fresh
otherwise.  When a run finalizes as failed, the stream bridge clears
both continuation handles before setting Dead, so the next run after
such a Dead starts fresh.  `stop_agent` forces Dead without clearing
the handles, so the next run after it spawns a follow-up whenever a
handle is retained — it does not start fresh. -/
theorem c1_spawn_decision_amended (row : SessionAgentRow) :
    ((run_transition_to_running row).state = ChatSessionAgentState.running
      ∧ (run_transition_to_running row).agentSessionId = row.agentSessionId)
    ∧ (run_spawn_kind row = SpawnKind.followUp ↔ row.agentSessionId ≠ Option.none)
    ∧ ((bridge_finalize_row row true).agentSessionId = Option.none
      ∧ (bridge_finalize_row row true).agentMessageId = Option.none
      ∧ (bridge_finalize_row row true).state = ChatSessionAgentState.dead
      ∧ run_spawn_kind (bridge_finalize_row row true) = SpawnKind.fresh)
    ∧ ((bridge_finalize_row row false).state = ChatSessionAgentState.idle
      ∧ (bridge_finalize_row row false).agentSessionId = row.agentSessionId)
    ∧ ((stop_agent row).state = ChatSessionAgentState.dead
      ∧ (stop_agent row).agentSessionId = row.agentSessionId
      ∧ (run_spawn_kind (stop_agent row) = SpawnKind.followUp
          ↔ row.agentSessionId ≠ Option.none)) := by
  obtain ⟨st, sid, mid⟩ := row
  cases st <;> cases sid <;>
    simp [run_spawn_kind, run_transition_to_running, spawn_decision,
      bridge_finalize_row, stop_agent, update_state]

/-! Stream events of a clean run (`chat_runner.rs::run_agent_for_mention`,
`spawn_stream_bridge`, `process_stream_patch`). -/

/-- Mention acknowledgement status (`chat_runner.rs::MentionStatus`). -/
inductive MentionStatus
  | received
  | running
  | completed
  | failed
deriving DecidableEq, Repr

/-- Shape of a `ChatStreamEvent` observed on a session subscription for a
single run (the constant session/agent/run identifiers are omitted). -/
inductive ChatStreamEvent
  | messageNewUser
  | messageNewAgent (content : String)
  | agentState (state : ChatSessionAgentState)
  | mentionAcknowledged (status : MentionStatus)
  | agentDelta (content : String) (delta : Bool) (isFinal : Bool)
deriving DecidableEq, BEq, Repr

/-- Delta computation of `process_stream_patch`: if the current content
extends the prior one, the suffix is a delta; otherwise the full content
is re-sent as a non-delta. -/
def compute_delta (previous current : String) : String × Bool :=
  if previous.data.isPrefixOf current.data then
    (String.mk (current.data.drop previous.data.length), true)
  else (current, false)

/-- Rust `content.trim().is_empty()`: true iff every character is
whitespace. -/
def is_blank (s : String) : Bool := s.data.all Char.isWhitespace

/-- Events emitted by `process_stream_patch` for successive assistant
contents of one stream index: non-empty deltas only, never final. -/
def stream_delta_events : List String → String → List ChatStreamEvent
  | [], _ => []
  | c :: cs, prev =>
    let d := compute_delta prev c
    (if d.1.data.isEmpty then [] else [ChatStreamEvent.agentDelta d.1 d.2 false])
      ++ stream_delta_events cs c

/-- The `latest_assistant` value of the bridge after the patches. -/
def latest_assistant_after (patches : List String) : String :=
  patches.foldl (fun _ c => c) ""

/-- Events emitted by `run_agent_for_mention` when transitioning the
SessionAgent to Running, in program order: `AgentState{Running}` first,
then `MentionAcknowledged{Running}`. -/
def run_start_events : List ChatStreamEvent :=
  [ChatStreamEvent.agentState .running,
   ChatStreamEvent.mentionAcknowledged .running]

/-- Events emitted by the stream bridge after `Finished`, in program
order: the final agent message (when the content is non-empty), then the
final `AgentDelta{is_final=true}`, then `AgentState`, then
`MentionAcknowledged`. -/
def bridge_finish_events (latestAssistant : String) (failed : Bool) :
    List ChatStreamEvent :=
  (if is_blank latestAssistant then []
   else [ChatStreamEvent.messageNewAgent latestAssistant])
  ++ [ChatStreamEvent.agentDelta latestAssistant false true,
      ChatStreamEvent.agentState (if failed then .dead else .idle),
      ChatStreamEvent.mentionAcknowledged (if failed then .failed else .completed)]

/-- Subscription trace of a single clean run triggered by one user
mention: the user `MessageNew`, the run-start events, the streamed
deltas, and the bridge finalization events with success. -/
def clean_run_trace (patches : List String) : List ChatStreamEvent :=
  ChatStreamEvent.messageNewUser :: run_start_events
    ++ stream_delta_events patches ""
    ++ bridge_finish_events (latest_assistant_after patches) false

/-- Event order asserted by the claim for the clean `"hi"` run. -/
def c2_claimed_trace : List ChatStreamEvent :=
  [ChatStreamEvent.messageNewUser,
   ChatStreamEvent.mentionAcknowledged .running,
   ChatStreamEvent.agentState .running,
   ChatStreamEvent.agentDelta "hi" true false,
   ChatStreamEvent.agentDelta "hi" false true,
   ChatStreamEvent.messageNewAgent "hi",
   ChatStreamEvent.agentState .idle,
   ChatStreamEvent.mentionAcknowledged .completed]

/-- C2 counterexample: for the clean run whose executor emits one
assistant message `"hi"`, the observed trace differs from the claimed
order — the code emits `AgentState{Running}` before
`MentionAcknowledged{Running}`, and `MessageNew(agent)` before the final
`AgentDelta{is_final=true}`. -/
theorem c2_clean_run_trace_counterexample :
    clean_run_trace ["hi"] ≠ c2_claimed_trace := by decide

/-- C2 (amended): the clean run's events occur in exactly this order:
`MessageNew(user)`, `AgentState{Running}`, `MentionAcknowledged{Running}`,
`AgentDelta{is_final=false}`, `MessageNew(agent)`,
`AgentDelta{is_final=true}`, `AgentState{Idle}`,
`MentionAcknowledged{Completed}`; in particular
`AgentDelta{is_final=true}` still precedes `AgentState{Idle|Dead}` and
`MentionAcknowledged{Completed|Failed}` for that run. -/
theorem c2_clean_run_trace_amended :
    clean_run_trace ["hi"]
      = [ChatStreamEvent.messageNewUser,
         ChatStreamEvent.agentState .running,
         ChatStreamEvent.mentionAcknowledged .running,
         ChatStreamEvent.agentDelta "hi" true false,
         ChatStreamEvent.messageNewAgent "hi",
         ChatStreamEvent.agentDelta "hi" false true,
         ChatStreamEvent.agentState .idle,
         ChatStreamEvent.mentionAcknowledged .completed]
    ∧ (clean_run_trace ["hi"]).indexOf (ChatStreamEvent.agentDelta "hi" false true)
        < (clean_run_trace ["hi"]).indexOf (ChatStreamEvent.agentState .idle)
    ∧ (clean_run_trace ["hi"]).indexOf (ChatStreamEvent.agentDelta "hi" false true)
        < (clean_run_trace ["hi"]).indexOf
            (ChatStreamEvent.mentionAcknowledged .completed) := by decide

/-! Token-usage fallback of the stream bridge
(`chat_runner.rs::spawn_stream_bridge`). -/

/-- The token-usage record written into `meta.json`
(`executors::logs::TokenUsageInfo`, cache-read field omitted). -/
structure TokenUsageRecord where
  totalTokens : Nat
  modelContextWindow : Nat
  inputTokens : Option Nat
  outputTokens : Option Nat
  isEstimated : Bool
deriving DecidableEq, Repr

/-- Files written into the run directory before the executor starts:
`run_agent_for_mention` persists the prompt to `input.md`. -/
def run_dir_files (prompt : String) : String → Option String :=
  fun name => if name = "input.md" then some prompt else Option.none

/-- Token usage recorded at run completion (`spawn_stream_bridge`): the
last observed `TokenUsageInfo` if any; otherwise the fallback estimates
the input from the contents of `input.txt` in the run directory
(defaulting to the empty string when the file is missing) and the output
from `latest_assistant`, marking the record estimated. -/
def bridge_token_usage (est : String → Nat) (readFile : String → Option String)
    (lastTokenUsage : Option TokenUsageRecord) (latestAssistant : String) :
    TokenUsageRecord :=
  match lastTokenUsage with
  | some usage => usage
  | Option.none =>
    let promptContent := (readFile "input.txt").getD ""
    let estimatedInput := est promptContent
    let estimatedOutput := est latestAssistant
    { totalTokens := estimatedInput + estimatedOutput
      modelContextWindow := 0
      inputTokens := some estimatedInput
      outputTokens := some estimatedOutput
      isEstimated := true }

/-- The length-based estimator the source falls back to when the BPE
tables cannot load (`estimate_tokens_with_tiktoken`, error arm). -/
def estimate_tokens_len_fallback (text : String) : Nat := text.length / 4

/-- C3 (code bug): for a run that persisted a 40-character prompt to
`input.md` and observed no `TokenUsageInfo`, the fallback reads
`input.txt` — which the run never writes — so `input_tokens` is the
estimator count of the empty string (0), not of the persisted prompt
file (10); `is_estimated` is true and the totals follow the wrong input
count. -/
theorem c3_token_usage_fallback_reads_missing_file :
    bridge_token_usage estimate_tokens_len_fallback
        (run_dir_files "0123456789012345678901234567890123456789")
        Option.none "hi"
      = { totalTokens := 0, modelContextWindow := 0, inputTokens := some 0,
          outputTokens := some 0, isEstimated := true }
    ∧ estimate_tokens_len_fallback "0123456789012345678901234567890123456789" = 10
    ∧ run_dir_files "0123456789012345678901234567890123456789" "input.txt"
        = Option.none := by
  decide

/-! Per-SessionAgent scheduling queue (`chat_runner.rs`:
`run_agent_for_mention` Running branch, `process_pending_queue`,
`clear_pending_queue_on_failure`). -/

/-- Scheduler state of one SessionAgent: its state, the pending FIFO
queue, and the observable logs — queued runs started (in order), the
`Received` acknowledgements, and the `Failed` acknowledgements. -/
structure SchedState (M : Type) where
  agState : ChatSessionAgentState
  queue : List M
  processed : List M
  receivedAcks : List M
  failedAcks : List M

/-- A mention arriving while the SessionAgent is Running
(`run_agent_for_mention`): the message is pushed at the back of the
queue, a `Received` acknowledgement is emitted and persisted, and the
state is left unchanged. -/
def enqueue_mention {M : Type} (s : SchedState M) (m : M) : SchedState M :=
  { s with queue := s.queue ++ [m], receivedAcks := s.receivedAcks ++ [m] }

/-- Finalization of the in-flight run (`spawn_stream_bridge` tail): on
success the state becomes Idle and `process_pending_queue` pops the
front pending message, starting its run (state Running again); on
failure the state becomes Dead, every queued message receives a
`Failed` acknowledgement in order, and the queue is dropped
(`clear_pending_queue_on_failure`). -/
def finalize_run {M : Type} (s : SchedState M) (failed : Bool) : SchedState M :=
  if failed then
    { s with agState := .dead, failedAcks := s.failedAcks ++ s.queue, queue := [] }
  else
    match s.queue with
    | [] => { s with agState := .idle }
    | m :: rest =>
      { s with agState := .running, queue := rest, processed := s.processed ++ [m] }

/-- Arrival of a batch of mentions while Running. -/
def enqueue_all {M : Type} (s : SchedState M) (L : List M) : SchedState M :=
  L.foldl enqueue_mention s

/-- Iterated successful finalizations. -/
def finalize_successes {M : Type} (s : SchedState M) : Nat → SchedState M
  | 0 => s
  | k + 1 => finalize_successes (finalize_run s false) k

/-- A SessionAgent currently Running with an empty queue and no events
logged yet. -/
def initial_running_state (M : Type) : SchedState M :=
  ⟨.running, [], [], [], []⟩

lemma enqueue_all_spec {M : Type} (L : List M) :
    ∀ s : SchedState M, enqueue_all s L
      = { s with queue := s.queue ++ L, receivedAcks := s.receivedAcks ++ L } := by
  induction L with
  | nil => intro s; simp [enqueue_all]
  | cons m L ih =>
    intro s
    rw [enqueue_all, List.foldl_cons]
    have := ih (enqueue_mention s m)
    rw [enqueue_all] at this
    rw [this]
    simp [enqueue_mention, List.append_assoc]

lemma finalize_successes_spec {M : Type} :
    ∀ (k : Nat) (s : SchedState M), k ≤ s.queue.length →
      finalize_successes s k
        = { s with
            agState := if k = 0 then s.agState else .running,
            queue := s.queue.drop k,
            processed := s.processed ++ s.queue.take k } := by
  intro k
  induction k with
  | zero => intro s _; simp [finalize_successes]
  | succ k ih =>
    intro s hk
    cases hq : s.queue with
    | nil => rw [hq] at hk; simp at hk
    | cons m rest =>
      rw [finalize_successes]
      have hfin : finalize_run s false
          = { s with
              agState := .running
              queue := rest
              processed := s.processed ++ [m] } := by
        simp [finalize_run, hq]
      have hrest : k ≤ rest.length := by
        rw [hq] at hk; simpa using hk
      rw [hfin, ih _ (by simpa using hrest)]
      simp [List.append_assoc, ite_self]

/-- C8: for a SessionAgent in state Running that receives `N` further
mention messages, each is appended to the FIFO queue with a `Received`
acknowledgement and the state is unchanged; after `k ≤ N` successful
finalizations the first `k` messages have been started in arrival order
exactly once (all of them after `N`); and if the in-flight run finalizes
Dead, every queued message receives a `Failed` acknowledgement and the
queue is dropped. -/
theorem c8_queue_fifo {M : Type} (L : List M) (k : Nat) (hk : k ≤ L.length) :
    ((enqueue_all (initial_running_state M) L).agState = .running
      ∧ (enqueue_all (initial_running_state M) L).queue = L
      ∧ (enqueue_all (initial_running_state M) L).receivedAcks = L
      ∧ (enqueue_all (initial_running_state M) L).processed = [])
    ∧ ((finalize_successes (enqueue_all (initial_running_state M) L) k).processed
          = L.take k
      ∧ (finalize_successes (enqueue_all (initial_running_state M) L) k).queue
          = L.drop k
      ∧ (finalize_successes (enqueue_all (initial_running_state M) L) L.length).processed
          = L
      ∧ (finalize_successes (enqueue_all (initial_running_state M) L) L.length).queue
          = [])
    ∧ ((finalize_run (enqueue_all (initial_running_state M) L) true).failedAcks = L
      ∧ (finalize_run (enqueue_all (initial_running_state M) L) true).queue = []
      ∧ (finalize_run (enqueue_all (initial_running_state M) L) true).agState = .dead) := by
  have henq : enqueue_all (initial_running_state M) L
      = { agState := .running, queue := L, processed := [],
          receivedAcks := L, failedAcks := [] } := by
    rw [enqueue_all_spec]
    simp [initial_running_state]
  refine ⟨?_, ?_, ?_⟩
  · rw [henq]
    exact ⟨rfl, rfl, rfl, rfl⟩
  · rw [henq]
    constructor
    · rw [finalize_successes_spec k _ (by simpa using hk)]
      simp
    constructor
    · rw [finalize_successes_spec k _ (by simpa using hk)]
    constructor
    · rw [finalize_successes_spec L.length _ (by simp)]
      simp
    · rw [finalize_successes_spec L.length _ (by simp)]
      simp
  · rw [henq]
    simp [finalize_run]

theorem c8_queue_fifo_witness :
    (enqueue_all (initial_running_state Nat) [1, 2, 3]).queue = [1, 2, 3]
    ∧ (finalize_successes (enqueue_all (initial_running_state Nat) [1, 2, 3]) 2).processed
        = [1, 2]
    ∧ (finalize_run (enqueue_all (initial_running_state Nat) [1, 2, 3]) true).failedAcks
        = [1, 2, 3] := by
  have h := c8_queue_fifo (M := Nat) [1, 2, 3] 2 (by decide)
  exact ⟨h.1.2.1, h.2.1.1, h.2.2.1⟩

/-! Compression engine (`chat.rs::compress_messages_if_needed` and its
helpers).  The byte-pair token estimator `est` (applied to a message
list, `estimate_token_count`) and the fingerprint hash `fp`
(`calculate_messages_fingerprint`) are parameters; the summarization
outcome (`try_summarize_with_agents`) is a parameter `summarize`; `now`
stands for `Utc::now().to_rfc3339()`; `used` is the set of cutoff-file
indices already present in the context directory; the database/in-memory
cache entry is passed and returned explicitly. -/

/-- A simplified message (`chat_history_file.rs::SimplifiedMessage`). -/
structure SimplifiedMessage where
  sender : String
  content : String
  timestamp : String
deriving DecidableEq, Repr

/-- Compression result type (`chat.rs::CompressionType`; `noCompression`
embeds the source's `None` variant). -/
inductive CompressionType
  | noCompression
  | aiSummarized
  | truncated
deriving DecidableEq, Repr

/-- Warning attached to a fallback compression (`chat.rs::CompressionWarning`). -/
structure CompressionWarningRec where
  code : String
  message : String
  splitFilePath : String
deriving DecidableEq, Repr

/-- Result of a compression call (`chat.rs::CompressionResult`). -/
structure CompressionResult where
  messages : List SimplifiedMessage
  compressionType : CompressionType
  warning : Option CompressionWarningRec
deriving DecidableEq, Repr

/-- Cache entry (`chat.rs::CompressionCacheEntry`). -/
structure CompressionCacheEntry where
  sourceFingerprint : Nat
  sourceMessageCount : Nat
  tokenThreshold : Nat
  compressionPercentage : Nat
  sourceTokenCount : Nat
  effectiveTokenCount : Nat
  result : CompressionResult
deriving DecidableEq, Repr

/-- Per-message token estimate used by the prefix selection:
`estimate_token_count(from_ref(message)).max(1)`. -/
def per_message_tokens (est : List SimplifiedMessage → Nat) (m : SimplifiedMessage) : Nat :=
  max (est [m]) 1

/-- Accumulation loop of `select_messages_to_compress_by_token`. -/
def selectCompressAux (est : List SimplifiedMessage → Nat) (target : Nat) :
    List SimplifiedMessage → Nat → Nat → Nat × Nat
  | [], selCnt, selTok => (selCnt, selTok)
  | m :: rest, selCnt, selTok =>
    let selTok := selTok + per_message_tokens est m
    let selCnt := selCnt + 1
    if target ≤ selTok then (selCnt, selTok)
    else selectCompressAux est target rest selCnt selTok

/-- Embedding of `chat.rs::select_messages_to_compress_by_token`:
returns `(count, target_tokens, selected_tokens)` — the shortest prefix
whose cumulative per-message tokens reach the ceiling of
`total * percentage / 100` (at least 1 token, at least 1 message). -/
def select_messages_to_compress_by_token (est : List SimplifiedMessage → Nat)
    (messages : List SimplifiedMessage) (totalTokens pct : Nat) : Nat × Nat × Nat :=
  if messages.isEmpty then (0, 0, 0)
  else
    let target := max ((totalTokens * pct + 99) / 100) 1
    let sel := selectCompressAux est target messages 0 0
    (min (max sel.1 1) messages.length, target, sel.2)

/-- The smallest-unused-index search of the cutoff-file loop
(`compress_messages_if_needed`: `loop { if !candidate.exists() ... }`),
with the fuel `used.length + 1` that always suffices. -/
def least_unused_from (used : List Nat) : Nat → Nat → Nat
  | 0, n => n
  | fuel + 1, n => if used.contains n then least_unused_from used fuel (n + 1) else n

/-- Smallest index `n` such that `cutoff_message_<n>.json` does not yet
exist, given the indices `used` that do. -/
def least_unused_cutoff_index (used : List Nat) : Nat :=
  least_unused_from used (used.length + 1) 0

/-- Path of the cutoff file (`ctx_dir.join(format!("cutoff_message_..."))`). -/
def cutoff_file_path (ctxDir : String) (idx : Nat) : String :=
  ctxDir ++ "/cutoff_message_" ++ toString idx ++ ".json"

/-- Synthetic header message of an AI-summarized result. -/
def ai_summary_message (summary now : String) : SimplifiedMessage :=
  { sender := "system:summary"
    content := "[History Summary]\n" ++ summary
    timestamp := now }

/-- Synthetic header message of a truncated (fallback) result. -/
def fallback_summary_message (cnt selTok : Nat) (path now : String) : SimplifiedMessage :=
  { sender := "system:summary"
    content := "[History Summary - Fallback]\nAI summarization failed; archived "
      ++ toString cnt ++ " messages (~" ++ toString selTok ++ " tokens) to " ++ path
    timestamp := now }

/-- Warning of a truncated (fallback) result. -/
def fallback_warning (cnt selTok : Nat) (path : String) : CompressionWarningRec :=
  { code := "COMPRESSION_FALLBACK"
    message := "AI summarization failed or was ineffective; archived "
      ++ toString cnt ++ " messages (~" ++ toString selTok ++ " tokens) to cutoff file"
    splitFilePath := path }

/-- Embedding of `cache_compression_result_in_memory`. -/
def cache_compression_result_in_memory (est : List SimplifiedMessage → Nat)
    (srcFp srcCount threshold pct srcTok : Nat) (result : CompressionResult) :
    CompressionCacheEntry :=
  { sourceFingerprint := srcFp
    sourceMessageCount := srcCount
    tokenThreshold := threshold
    compressionPercentage := pct
    sourceTokenCount := srcTok
    effectiveTokenCount := est result.messages
    result := result }

/-- Observable outcome of one compression call: the returned result, the
cache entry afterwards, the cutoff file written (index and archived
prefix, when any), and whether the full-cache-hit early return fired. -/
structure CompressOutcome where
  result : CompressionResult
  newCache : CompressionCacheEntry
  cutoffWritten : Option (Nat × List SimplifiedMessage)
  cacheHit : Bool

/-- Count component of the selected compress prefix. -/
def selected_count (est : List SimplifiedMessage → Nat)
    (effective : List SimplifiedMessage) (pct : Nat) : Nat :=
  (select_messages_to_compress_by_token est effective (est effective) pct).1

/-- Selected-tokens component of the selected compress prefix. -/
def selected_tokens (est : List SimplifiedMessage → Nat)
    (effective : List SimplifiedMessage) (pct : Nat) : Nat :=
  (select_messages_to_compress_by_token est effective (est effective) pct).2.2

/-- The AI summarization attempt of `compress_messages_if_needed`:
tried only when the session has agents, succeeds only when the summary
in front of the kept suffix strictly reduces the token count. -/
def ai_attempt (est : List SimplifiedMessage → Nat)
    (summarize : List SimplifiedMessage → Option String) (hasAgents : Bool)
    (now : String) (effective : List SimplifiedMessage) (pct : Nat) :
    Option CompressionResult :=
  if hasAgents then
    match summarize (effective.take (selected_count est effective pct)) with
    | some summary =>
      if est effective
          ≤ est (ai_summary_message summary now
              :: effective.drop (selected_count est effective pct)) then
        Option.none
      else
        some ⟨ai_summary_message summary now
            :: effective.drop (selected_count est effective pct),
          CompressionType.aiSummarized, Option.none⟩
    | Option.none => Option.none
  else Option.none

/-- Common tail of every non-cache-hit return path: the result together
with the freshly written cache entry (`cache_compression_result`). -/
def finish_outcome (est : List SimplifiedMessage → Nat)
    (srcFp srcCount threshold pct srcTok : Nat) (result : CompressionResult)
    (cutoff : Option (Nat × List SimplifiedMessage)) : CompressOutcome :=
  ⟨result,
    cache_compression_result_in_memory est srcFp srcCount threshold pct srcTok result,
    cutoff, false⟩

/-- Body of `compress_messages_if_needed` after the cache lookup: the
threshold check on the effective messages, the prefix selection, the AI
summarization attempt (successful only when it strictly reduces the
token count), and the truncation fallback writing the cutoff file. -/
def compress_core (est : List SimplifiedMessage → Nat)
    (summarize : List SimplifiedMessage → Option String) (hasAgents : Bool)
    (now ctxDir : String) (used : List Nat) (srcFp srcCount srcTok : Nat)
    (effective : List SimplifiedMessage)
    (inheritedType : Option CompressionType)
    (inheritedWarning : Option CompressionWarningRec)
    (threshold pct : Nat) : CompressOutcome :=
  if est effective ≤ threshold then
    finish_outcome est srcFp srcCount threshold pct srcTok
      ⟨effective, inheritedType.getD CompressionType.noCompression,
        if inheritedType.getD CompressionType.noCompression
            = CompressionType.noCompression
          then Option.none else inheritedWarning⟩
      Option.none
  else if effective.isEmpty then
    finish_outcome est srcFp srcCount threshold pct srcTok
      ⟨effective, CompressionType.noCompression, Option.none⟩
      Option.none
  else
    match ai_attempt est summarize hasAgents now effective pct with
    | some result =>
      finish_outcome est srcFp srcCount threshold pct srcTok result Option.none
    | Option.none =>
      finish_outcome est srcFp srcCount threshold pct srcTok
        ⟨fallback_summary_message (selected_count est effective pct)
            (selected_tokens est effective pct)
            (cutoff_file_path ctxDir (least_unused_cutoff_index used)) now
          :: effective.drop (selected_count est effective pct),
          CompressionType.truncated,
          some (fallback_warning (selected_count est effective pct)
            (selected_tokens est effective pct)
            (cutoff_file_path ctxDir (least_unused_cutoff_index used)))⟩
        (some (least_unused_cutoff_index used,
          effective.take (selected_count est effective pct)))

/-- Embedding of `chat.rs::compress_messages_if_needed`: full cache hit
when fingerprint and both thresholds match exactly; otherwise an
incremental base when the cached entry covers a fingerprint-matching
prefix and both thresholds match; then the core compression. -/
def compress_messages_if_needed (est : List SimplifiedMessage → Nat)
    (fp : List SimplifiedMessage → Nat)
    (summarize : List SimplifiedMessage → Option String) (hasAgents : Bool)
    (now ctxDir : String) (cache : Option CompressionCacheEntry) (used : List Nat)
    (messages : List SimplifiedMessage) (threshold pct : Nat) : CompressOutcome :=
  match cache with
  | some cached =>
    if cached.sourceFingerprint = fp messages ∧ cached.tokenThreshold = threshold
        ∧ cached.compressionPercentage = pct then
      ⟨cached.result, cached, Option.none, true⟩
    else if cached.tokenThreshold = threshold ∧ cached.compressionPercentage = pct
        ∧ cached.sourceMessageCount ≤ messages.length
        ∧ fp (messages.take cached.sourceMessageCount) = cached.sourceFingerprint then
      compress_core est summarize hasAgents now ctxDir used (fp messages)
        messages.length (est messages)
        (cached.result.messages ++ messages.drop cached.sourceMessageCount)
        (if cached.result.compressionType ≠ CompressionType.noCompression
          then some cached.result.compressionType else Option.none)
        (if cached.result.compressionType ≠ CompressionType.noCompression
          then cached.result.warning else Option.none)
        threshold pct
    else
      compress_core est summarize hasAgents now ctxDir used (fp messages)
        messages.length (est messages) messages Option.none Option.none threshold pct
  | Option.none =>
    compress_core est summarize hasAgents now ctxDir used (fp messages)
      messages.length (est messages) messages Option.none Option.none threshold pct

lemma compress_core_cacheHit_false (est : List SimplifiedMessage → Nat)
    (summarize : List SimplifiedMessage → Option String) (hasAgents : Bool)
    (now ctxDir : String) (used : List Nat) (srcFp srcCount srcTok : Nat)
    (effective : List SimplifiedMessage) (inheritedType : Option CompressionType)
    (inheritedWarning : Option CompressionWarningRec) (threshold pct : Nat) :
    (compress_core est summarize hasAgents now ctxDir used srcFp srcCount srcTok
      effective inheritedType inheritedWarning threshold pct).cacheHit = false := by
  unfold compress_core
  repeat' split
  all_goals rfl


lemma compress_core_newCache_spec (est : List SimplifiedMessage → Nat)
    (summarize : List SimplifiedMessage → Option String) (hasAgents : Bool)
    (now ctxDir : String) (used : List Nat) (srcFp srcCount srcTok : Nat)
    (effective : List SimplifiedMessage) (inheritedType : Option CompressionType)
    (inheritedWarning : Option CompressionWarningRec) (threshold pct : Nat) :
    (compress_core est summarize hasAgents now ctxDir used srcFp srcCount srcTok
        effective inheritedType inheritedWarning threshold pct).newCache
      = cache_compression_result_in_memory est srcFp srcCount threshold pct srcTok
          (compress_core est summarize hasAgents now ctxDir used srcFp srcCount srcTok
            effective inheritedType inheritedWarning threshold pct).result := by
  unfold compress_core
  repeat' split
  all_goals rfl


lemma compress_full_cache_hit (est : List SimplifiedMessage → Nat)
    (fp : List SimplifiedMessage → Nat)
    (summarize : List SimplifiedMessage → Option String) (hasAgents : Bool)
    (now ctxDir : String) (used : List Nat) (messages : List SimplifiedMessage)
    (threshold pct : Nat) (cached : CompressionCacheEntry)
    (h1 : cached.sourceFingerprint = fp messages)
    (h2 : cached.tokenThreshold = threshold)
    (h3 : cached.compressionPercentage = pct) :
    compress_messages_if_needed est fp summarize hasAgents now ctxDir (some cached)
        used messages threshold pct
      = ⟨cached.result, cached, Option.none, true⟩ := by
  simp only [compress_messages_if_needed]
  rw [if_pos ⟨h1, h2, h3⟩]

lemma compress_newCache_spec (est : List SimplifiedMessage → Nat)
    (fp : List SimplifiedMessage → Nat)
    (summarize : List SimplifiedMessage → Option String) (hasAgents : Bool)
    (now ctxDir : String) (cache : Option CompressionCacheEntry) (used : List Nat)
    (messages : List SimplifiedMessage) (threshold pct : Nat) :
    (compress_messages_if_needed est fp summarize hasAgents now ctxDir cache used
        messages threshold pct).newCache.sourceFingerprint = fp messages
    ∧ (compress_messages_if_needed est fp summarize hasAgents now ctxDir cache used
        messages threshold pct).newCache.tokenThreshold = threshold
    ∧ (compress_messages_if_needed est fp summarize hasAgents now ctxDir cache used
        messages threshold pct).newCache.compressionPercentage = pct
    ∧ (compress_messages_if_needed est fp summarize hasAgents now ctxDir cache used
        messages threshold pct).newCache.result
      = (compress_messages_if_needed est fp summarize hasAgents now ctxDir cache used
          messages threshold pct).result := by
  cases cache with
  | none =>
    simp only [compress_messages_if_needed]
    rw [compress_core_newCache_spec]
    exact ⟨rfl, rfl, rfl, rfl⟩
  | some cached =>
    by_cases hhit : cached.sourceFingerprint = fp messages
        ∧ cached.tokenThreshold = threshold ∧ cached.compressionPercentage = pct
    · rw [compress_full_cache_hit est fp summarize hasAgents now ctxDir used messages
        threshold pct cached hhit.1 hhit.2.1 hhit.2.2]
      exact ⟨hhit.1, hhit.2.1, hhit.2.2, rfl⟩
    · simp only [compress_messages_if_needed]
      rw [if_neg hhit]
      by_cases hinc : cached.tokenThreshold = threshold
          ∧ cached.compressionPercentage = pct
          ∧ cached.sourceMessageCount ≤ messages.length
          ∧ fp (messages.take cached.sourceMessageCount) = cached.sourceFingerprint
      · rw [if_pos hinc, compress_core_newCache_spec]
        exact ⟨rfl, rfl, rfl, rfl⟩
      · rw [if_neg hinc, compress_core_newCache_spec]
        exact ⟨rfl, rfl, rfl, rfl⟩

lemma compress_cacheHit_iff (est : List SimplifiedMessage → Nat)
    (fp : List SimplifiedMessage → Nat)
    (summarize : List SimplifiedMessage → Option String) (hasAgents : Bool)
    (now ctxDir : String) (used : List Nat) (messages : List SimplifiedMessage)
    (threshold pct : Nat) (cached : CompressionCacheEntry) :
    (compress_messages_if_needed est fp summarize hasAgents now ctxDir (some cached)
        used messages threshold pct).cacheHit = true
      ↔ (cached.sourceFingerprint = fp messages ∧ cached.tokenThreshold = threshold
          ∧ cached.compressionPercentage = pct) := by
  constructor
  · intro hhit
    by_contra hno
    simp only [compress_messages_if_needed] at hhit
    rw [if_neg hno] at hhit
    by_cases hinc : cached.tokenThreshold = threshold
        ∧ cached.compressionPercentage = pct
        ∧ cached.sourceMessageCount ≤ messages.length
        ∧ fp (messages.take cached.sourceMessageCount) = cached.sourceFingerprint
    · rw [if_pos hinc, compress_core_cacheHit_false] at hhit
      exact Bool.false_ne_true hhit
    · rw [if_neg hinc, compress_core_cacheHit_false] at hhit
      exact Bool.false_ne_true hhit
  · intro hyes
    rw [compress_full_cache_hit est fp summarize hasAgents now ctxDir used messages
      threshold pct cached hyes.1 hyes.2.1 hyes.2.2]

/-- C6: for an unchanged message history and identical thresholds, a
second compression call served from the cache entry left by the first
returns the very same result (messages, compression type and warning,
including `split_file_path`) even at a different wall-clock time, writes
no new cutoff file, and takes the full-cache-hit early return; moreover
that early return fires exactly when the cached fingerprint and both
thresholds match the current call. -/
theorem c6_compression_idempotent_and_cache_exact
    (est fp : List SimplifiedMessage → Nat)
    (summarize : List SimplifiedMessage → Option String) (hasAgents : Bool)
    (now1 now2 ctxDir : String) (cache : Option CompressionCacheEntry)
    (used1 used2 : List Nat) (messages : List SimplifiedMessage)
    (threshold pct : Nat) :
    (compress_messages_if_needed est fp summarize hasAgents now2 ctxDir
        (some (compress_messages_if_needed est fp summarize hasAgents now1 ctxDir
          cache used1 messages threshold pct).newCache)
        used2 messages threshold pct).result
      = (compress_messages_if_needed est fp summarize hasAgents now1 ctxDir
          cache used1 messages threshold pct).result
    ∧ (compress_messages_if_needed est fp summarize hasAgents now2 ctxDir
        (some (compress_messages_if_needed est fp summarize hasAgents now1 ctxDir
          cache used1 messages threshold pct).newCache)
        used2 messages threshold pct).cutoffWritten = Option.none
    ∧ (compress_messages_if_needed est fp summarize hasAgents now2 ctxDir
        (some (compress_messages_if_needed est fp summarize hasAgents now1 ctxDir
          cache used1 messages threshold pct).newCache)
        used2 messages threshold pct).cacheHit = true
    ∧ ∀ cached : CompressionCacheEntry,
        (compress_messages_if_needed est fp summarize hasAgents now1 ctxDir
            (some cached) used1 messages threshold pct).cacheHit = true
          ↔ (cached.sourceFingerprint = fp messages
              ∧ cached.tokenThreshold = threshold
              ∧ cached.compressionPercentage = pct) := by
  have hm := compress_newCache_spec est fp summarize hasAgents now1 ctxDir cache used1
    messages threshold pct
  have hhit := compress_full_cache_hit est fp summarize hasAgents now2 ctxDir used2
    messages threshold pct
    (compress_messages_if_needed est fp summarize hasAgents now1 ctxDir cache used1
      messages threshold pct).newCache
    hm.1 hm.2.1 hm.2.2.1
  refine ⟨?_, ?_, ?_, ?_⟩
  · rw [hhit]
    exact hm.2.2.2
  · rw [hhit]
  · rw [hhit]
  · intro cached
    exact compress_cacheHit_iff est fp summarize hasAgents now1 ctxDir used1 messages
      threshold pct cached

lemma exists_unused_index (used : List Nat) :
    ∃ k, k < used.length + 1 ∧ k ∉ used := by
  by_contra h
  push_neg at h
  have hsub : Finset.range (used.length + 1) ⊆ used.toFinset := by
    intro x hx
    rw [List.mem_toFinset]
    exact h x (Finset.mem_range.mp hx)
  have hcard := Finset.card_le_card hsub
  rw [Finset.card_range] at hcard
  have := used.toFinset_card_le
  omega

lemma least_unused_from_spec (used : List Nat) :
    ∀ (fuel n : Nat), (∃ k, k < fuel ∧ (n + k) ∉ used) →
      least_unused_from used fuel n ∉ used
      ∧ (∀ m, n ≤ m → m < least_unused_from used fuel n → m ∈ used)
      ∧ n ≤ least_unused_from used fuel n := by
  intro fuel
  induction fuel with
  | zero =>
    intro n ⟨k, hk, _⟩
    omega
  | succ fuel ih =>
    intro n ⟨k, hk, hkmem⟩
    by_cases hn : n ∈ used
    · have hc : used.contains n = true := by simpa using hn
      have hstep : least_unused_from used (fuel + 1) n
          = least_unused_from used fuel (n + 1) := by
        rw [least_unused_from, if_pos hc]
      have hk0 : k ≠ 0 := by
        intro h0
        rw [h0, Nat.add_zero] at hkmem
        exact hkmem hn
      obtain ⟨k', rfl⟩ : ∃ k', k = k' + 1 := ⟨k - 1, by omega⟩
      have hex : ∃ j, j < fuel ∧ (n + 1 + j) ∉ used :=
        ⟨k', by omega, by
          have : n + 1 + k' = n + (k' + 1) := by omega
          rw [this]; exact hkmem⟩
      obtain ⟨hnot, hall, hle⟩ := ih (n + 1) hex
      rw [hstep]
      refine ⟨hnot, ?_, by omega⟩
      intro m hm1 hm2
      by_cases hmn : m = n
      · exact hmn ▸ hn
      · exact hall m (by omega) hm2
    · have hc : used.contains n = false := by simpa using hn
      have hstep : least_unused_from used (fuel + 1) n = n := by
        rw [least_unused_from, if_neg (by simp [hn])]
      rw [hstep]
      exact ⟨hn, fun m hm1 hm2 => absurd (Nat.lt_of_le_of_lt hm1 hm2) (lt_irrefl n), le_refl n⟩

lemma least_unused_cutoff_index_spec (used : List Nat) :
    least_unused_cutoff_index used ∉ used
    ∧ ∀ m, m < least_unused_cutoff_index used → m ∈ used := by
  obtain ⟨k, hk, hkmem⟩ := exists_unused_index used
  have hex : ∃ j, j < used.length + 1 ∧ (0 + j) ∉ used :=
    ⟨k, hk, by simpa using hkmem⟩
  obtain ⟨hnot, hall, _⟩ := least_unused_from_spec used (used.length + 1) 0 hex
  exact ⟨hnot, fun m hm => hall m (Nat.zero_le m) hm⟩

lemma compress_core_truncates (est : List SimplifiedMessage → Nat)
    (summarize : List SimplifiedMessage → Option String) (hasAgents : Bool)
    (now ctxDir : String) (used : List Nat) (srcFp srcCount srcTok : Nat)
    (effective : List SimplifiedMessage)
    (inheritedType : Option CompressionType)
    (inheritedWarning : Option CompressionWarningRec) (threshold pct : Nat)
    (hover : threshold < est effective) (hne : effective ≠ [])
    (hfail : ai_attempt est summarize hasAgents now effective pct = Option.none) :
    compress_core est summarize hasAgents now ctxDir used srcFp srcCount srcTok
        effective inheritedType inheritedWarning threshold pct
      = finish_outcome est srcFp srcCount threshold pct srcTok
          ⟨fallback_summary_message (selected_count est effective pct)
              (selected_tokens est effective pct)
              (cutoff_file_path ctxDir (least_unused_cutoff_index used)) now
            :: effective.drop (selected_count est effective pct),
            CompressionType.truncated,
            some (fallback_warning (selected_count est effective pct)
              (selected_tokens est effective pct)
              (cutoff_file_path ctxDir (least_unused_cutoff_index used)))⟩
          (some (least_unused_cutoff_index used,
            effective.take (selected_count est effective pct))) := by
  unfold compress_core
  rw [if_neg (by omega), if_neg (by simp [hne]), hfail]

/-- Prefix shape of the fallback header content. -/
lemma fallback_summary_message_content_starts (cnt selTok : Nat) (path now : String) :
    ("[History Summary - Fallback]" : String).data.isPrefixOf
      (fallback_summary_message cnt selTok path now).content.data = true := by
  have hsplit :
      ("[History Summary - Fallback]\nAI summarization failed; archived " : String).data
        = ("[History Summary - Fallback]" : String).data
          ++ ("\nAI summarization failed; archived " : String).data := by rfl
  show ("[History Summary - Fallback]" : String).data.isPrefixOf
      (("[History Summary - Fallback]\nAI summarization failed; archived "
        ++ toString cnt ++ " messages (~" ++ toString selTok ++ " tokens) to "
        ++ path : String)).data = true
  rw [List.isPrefixOf_iff_prefix]
  simp only [String.data_append, hsplit, List.append_assoc]
  exact List.prefix_append _ _

/-- C7: when the effective history exceeds the threshold and the AI
summarization attempt yields nothing (every agent failed, no agents, or
the summary did not strictly reduce the token count), the result is
`Truncated`: its first message is the `system:summary` fallback header —
whose content begins with `"[History Summary - Fallback]"` — followed by
the kept suffix; the compressed prefix is written to
`cutoff_message_<n>.json` for the smallest unused `n`; and the warning
carries code `"COMPRESSION_FALLBACK"` with `split_file_path` naming that
cutoff file. -/
theorem c7_truncation_fallback (est fp : List SimplifiedMessage → Nat)
    (summarize : List SimplifiedMessage → Option String) (hasAgents : Bool)
    (now ctxDir : String) (used : List Nat) (messages : List SimplifiedMessage)
    (threshold pct : Nat)
    (hover : threshold < est messages) (hne : messages ≠ [])
    (hfail : ai_attempt est summarize hasAgents now messages pct = Option.none) :
    (compress_messages_if_needed est fp summarize hasAgents now ctxDir Option.none
        used messages threshold pct).result.compressionType = CompressionType.truncated
    ∧ (compress_messages_if_needed est fp summarize hasAgents now ctxDir Option.none
        used messages threshold pct).result.messages
      = fallback_summary_message (selected_count est messages pct)
          (selected_tokens est messages pct)
          (cutoff_file_path ctxDir (least_unused_cutoff_index used)) now
        :: messages.drop (selected_count est messages pct)
    ∧ (fallback_summary_message (selected_count est messages pct)
        (selected_tokens est messages pct)
        (cutoff_file_path ctxDir (least_unused_cutoff_index used)) now).sender
      = "system:summary"
    ∧ ("[History Summary - Fallback]" : String).data.isPrefixOf
        (fallback_summary_message (selected_count est messages pct)
          (selected_tokens est messages pct)
          (cutoff_file_path ctxDir (least_unused_cutoff_index used)) now).content.data
      = true
    ∧ (compress_messages_if_needed est fp summarize hasAgents now ctxDir Option.none
        used messages threshold pct).cutoffWritten
      = some (least_unused_cutoff_index used,
          messages.take (selected_count est messages pct))
    ∧ least_unused_cutoff_index used ∉ used
    ∧ (∀ m, m < least_unused_cutoff_index used → m ∈ used)
    ∧ (compress_messages_if_needed est fp summarize hasAgents now ctxDir Option.none
        used messages threshold pct).result.warning
      = some (fallback_warning (selected_count est messages pct)
          (selected_tokens est messages pct)
          (cutoff_file_path ctxDir (least_unused_cutoff_index used)))
    ∧ (fallback_warning (selected_count est messages pct)
        (selected_tokens est messages pct)
        (cutoff_file_path ctxDir (least_unused_cutoff_index used))).code
      = "COMPRESSION_FALLBACK"
    ∧ (fallback_warning (selected_count est messages pct)
        (selected_tokens est messages pct)
        (cutoff_file_path ctxDir (least_unused_cutoff_index used))).splitFilePath
      = cutoff_file_path ctxDir (least_unused_cutoff_index used) := by
  have hcore : compress_messages_if_needed est fp summarize hasAgents now ctxDir
      Option.none used messages threshold pct
      = compress_core est summarize hasAgents now ctxDir used (fp messages)
          messages.length (est messages) messages Option.none Option.none
          threshold pct := by
    simp only [compress_messages_if_needed]
  rw [hcore, compress_core_truncates est summarize hasAgents now ctxDir used
    (fp messages) messages.length (est messages) messages Option.none Option.none
    threshold pct hover hne hfail]
  obtain ⟨hnot, hall⟩ := least_unused_cutoff_index_spec used
  exact ⟨rfl, rfl, rfl,
    fallback_summary_message_content_starts _ _ _ _, rfl, hnot, hall, rfl, rfl, rfl⟩

theorem c7_truncation_fallback_witness :
    (compress_messages_if_needed (fun l => 100 * l.length) (fun _ => 0)
        (fun _ => Option.none) true "now" "ctx" Option.none []
        [⟨"user:u", "aaa", "t1"⟩, ⟨"user:u", "bbb", "t2"⟩, ⟨"user:u", "ccc", "t3"⟩]
        1 50).result.compressionType = CompressionType.truncated
    ∧ (compress_messages_if_needed (fun l => 100 * l.length) (fun _ => 0)
        (fun _ => Option.none) true "now" "ctx" Option.none []
        [⟨"user:u", "aaa", "t1"⟩, ⟨"user:u", "bbb", "t2"⟩, ⟨"user:u", "ccc", "t3"⟩]
        1 50).cutoffWritten
      = some (0, [⟨"user:u", "aaa", "t1"⟩, ⟨"user:u", "bbb", "t2"⟩]) := by
  have h := c7_truncation_fallback (fun l => 100 * l.length) (fun _ => 0)
    (fun _ => Option.none) true "now" "ctx" []
    [⟨"user:u", "aaa", "t1"⟩, ⟨"user:u", "bbb", "t2"⟩, ⟨"user:u", "ccc", "t3"⟩]
    1 50 (by decide) (by decide) (by simp [ai_attempt])
  refine ⟨h.1, ?_⟩
  rw [h.2.2.2.2.1]
  rfl

end AgentsChatGroup
